import Mathlib

/-!
Shallow embedding of the `cpp-simple-vector` repository
(`src/simple-vector/array_ptr.h` and `src/simple-vector/simple_vector.h`).

The low-level buffer `ArrayPtr<Type>` is modelled as a structure holding
the nullity of `memory_`, the contents of the allocated block (a list whose
length is the allocated capacity), and the `size_` / `capacity_` fields.
Machine pointers become indices; `std::copy` over raw pointers becomes an
element-wise forward copy on the list (exactly the `*result++ = *first++`
loop the C++ standard specifies, which is what makes the overlapping copy
in `Insert` observable); `new Type[n]()` value-initialization becomes
`List.replicate n default`; the `std::is_arithmetic` dispatch in
`ArrayPtr::Resize` is an explicit `arith : Bool` parameter; allocation
failure in `ArrayPtr::Reserve` is an explicit `allocOk : Bool` oracle.
Writes out of the allocated block use `List.set`, which leaves the list
unchanged at out-of-range indices; the instrumented copy `copyFwdW`
additionally records every destination index the loop writes, so that
out-of-bounds writes can be talked about.
-/

namespace CppSimpleVector

/-- Element-wise forward copy loop `*result++ = *first++`, reading and
writing the same underlying block: models
`std::copy(first, last, result)` (plain or with `make_move_iterator`)
where `first`/`result` are indices `src`/`dst` into the block and
`n = last - first`.  Reads see writes made by earlier iterations, which
is the behaviour of the element-wise loop on overlapping ranges. -/
def copyFwd {α : Type} [Inhabited α] (l : List α) (src dst n : Nat) : List α :=
  match n with
  | 0 => l
  | n + 1 => copyFwd (l.set dst (l.getD src default)) (src + 1) (dst + 1) n

/-- `copyFwd` instrumented to also return the list of destination indices
written by the loop (in order). The resulting block is the same. -/
def copyFwdW {α : Type} [Inhabited α] (l : List α) (src dst n : Nat) :
    List α × List Nat :=
  match n with
  | 0 => (l, [])
  | n + 1 =>
    let r := copyFwdW (l.set dst (l.getD src default)) (src + 1) (dst + 1) n
    (r.1, dst :: r.2)

/-- The fill loop `for (i = lo; i < lo+n; ++i) memory_[i] = v;` from
`ArrayPtr::Resize`, with `n` the number of iterations. -/
def fillLoop {α : Type} (l : List α) (lo n : Nat) (v : α) : List α :=
  match n with
  | 0 => l
  | n + 1 => fillLoop (l.set lo v) (lo + 1) n v

/-- Sequential writes `memory_[i++] = v` for each `v` of `vs`, starting at
index `i` (the initializer-list constructor loop of `SimpleVector`). -/
def writeSeq {α : Type} (l : List α) (i : Nat) : List α → List α
  | [] => l
  | v :: vs => writeSeq (l.set i v) (i + 1) vs

/-- State of the buffer primitive `ArrayPtr<Type>`
(`src/simple-vector/array_ptr.h`): whether `memory_` is a non-null
pointer, the contents of the allocated block (length = number of
allocated slots), and the `size_` and `capacity_` fields. -/
structure ArrayPtr (α : Type) where
  memNonNull : Bool
  mem : List α
  size : Nat
  capacity : Nat
deriving Repr, DecidableEq

namespace ArrayPtr

variable {α : Type} [Inhabited α]

/-- Default constructor `ArrayPtr()`: null pointer, size 0, capacity 0. -/
def mk0 : ArrayPtr α := ⟨false, [], 0, 0⟩

/-- `ArrayPtr::Reserve(new_capacity)` with an explicit allocation oracle
`allocOk`.  No-op when `new_capacity <= capacity_`.  Otherwise
`new Type[new_capacity]()` value-initializes a fresh block
(`List.replicate newCap default`); if the allocation throws
(`allocOk = false`) the `catch (...)` swallows the exception and every
field is left untouched; on success the first `size_` elements are
copied over, the old block is released and the new block and capacity
are adopted. -/
def ReserveTry (allocOk : Bool) (a : ArrayPtr α) (newCap : Nat) : ArrayPtr α :=
  if newCap ≤ a.capacity then a
  else if allocOk then
    { memNonNull := true
      mem := a.mem.take a.size ++ List.replicate (newCap - a.size) default
      size := a.size
      capacity := newCap }
  else a

/-- `ArrayPtr::Reserve` on the successful-allocation path. -/
def Reserve (a : ArrayPtr α) (newCap : Nat) : ArrayPtr α :=
  ReserveTry true a newCap

/-- `ArrayPtr::Resize(new_size)`: reserve, then for arithmetic element
types (`arith = true`) assign `0` (the value-initialized default) to the
slots `[old_size, new_size)`, then set `size_ = new_size`. -/
def Resize (arith : Bool) (a : ArrayPtr α) (newSize : Nat) : ArrayPtr α :=
  let oldSize := a.size
  let a1 := a.Reserve newSize
  let a2 := if arith then { a1 with mem := fillLoop a1.mem oldSize (newSize - oldSize) default }
            else a1
  { a2 with size := newSize }

/-- Constructor `ArrayPtr(size)`: starts null/0/0, then `Resize(size)`
only when `size > 0`. -/
def mkSized (arith : Bool) (n : Nat) : ArrayPtr α :=
  if 0 < n then Resize arith mk0 n else mk0

/-- Constructor `ArrayPtr(size, capacity)`: `Resize(capacity)` then
`SetSize(size)`. -/
def mkSizeCap (arith : Bool) (sz cap : Nat) : ArrayPtr α :=
  { Resize arith mk0 cap with size := sz }

/-- Checked access `ArrayPtr::At(index)`: throws `std::out_of_range`
(modelled as `none`) when `index >= size_`, otherwise returns
`memory_[index]`. -/
def At (a : ArrayPtr α) (i : Nat) : Option α :=
  if i ≥ a.size then none else some (a.mem.getD i default)

/-- Copy constructor `ArrayPtr(const ArrayPtr&)`: allocates
`new Type[other.capacity_]` — a non-null pointer even when the capacity
is 0 — copies the `size_` occupied elements and adopts the block via
`swap` (the remaining slots are default-initialized in the model). -/
def copy (a : ArrayPtr α) : ArrayPtr α :=
  { memNonNull := true
    mem := a.mem.take a.size ++ List.replicate (a.capacity - a.size) default
    size := a.size
    capacity := a.capacity }

/-- `ArrayPtr::swap`: exchanges the three fields of the two objects. -/
def swap (a b : ArrayPtr α) : ArrayPtr α × ArrayPtr α := (b, a)

/-- Move constructor `ArrayPtr(ArrayPtr&&)`: default-initializes the new
object (null/0/0) and swaps with the source.  Returns
(constructed object, source after the move). -/
def moveCtor (src : ArrayPtr α) : ArrayPtr α × ArrayPtr α :=
  swap mk0 src

/-- Move assignment `operator=(ArrayPtr&&)` on the `&rhs != this` path:
releases the destination's block, zeroes its fields, then swaps with the
source.  Returns (destination after, source after). -/
def moveAssign (dst src : ArrayPtr α) : ArrayPtr α × ArrayPtr α :=
  let dst1 := { dst with memNonNull := false, mem := ([] : List α),
                         size := 0, capacity := 0 }
  swap dst1 src

/-- The user-visible contents of the buffer: the logically valid elements
at indices `[0, size_)`. -/
def elems (a : ArrayPtr α) : List α := a.mem.take a.size

/-- Representation well-formedness: the size field never exceeds the
capacity field, and the allocated block has exactly `capacity_` slots. -/
def WF (a : ArrayPtr α) : Prop := a.size ≤ a.capacity ∧ a.mem.length = a.capacity

end ArrayPtr

/-- The sequence container `SimpleVector<Type>`
(`src/simple-vector/simple_vector.h`): a single `ArrayPtr` member.
Iterators become indices into the block: `begin()` is index 0, `end()`
is index `GetSize()`, and `std::distance(cbegin(), pos)` is the index
`pos` itself. -/
structure SimpleVector (α : Type) where
  array_ : ArrayPtr α
deriving Repr, DecidableEq

namespace SimpleVector

variable {α : Type} [Inhabited α]

/-- Default constructor `SimpleVector()`. -/
def mkEmpty : SimpleVector α := ⟨ArrayPtr.mk0⟩

/-- `SimpleVector::GetSize`. -/
def GetSize (s : SimpleVector α) : Nat := s.array_.size

/-- `SimpleVector::GetCapacity`. -/
def GetCapacity (s : SimpleVector α) : Nat := s.array_.capacity

/-- `SimpleVector::IsEmpty`. -/
def IsEmpty (s : SimpleVector α) : Bool := s.array_.size == 0

/-- `SimpleVector::At(index)`: delegates to `ArrayPtr::At`. -/
def At (s : SimpleVector α) (i : Nat) : Option α := s.array_.At i

/-- The user-visible sequence (elements at indices `[0, GetSize())`). -/
def elems (s : SimpleVector α) : List α := s.array_.elems

/-- Constructor `SimpleVector(size)`: delegates to `ArrayPtr(size)`. -/
def mkSized (arith : Bool) (n : Nat) : SimpleVector α :=
  ⟨ArrayPtr.mkSized arith n⟩

/-- Constructor `SimpleVector(size, value)`: `ArrayPtr(size)` then
`*it = value` for every position in `[begin, end)`. -/
def mkFill (arith : Bool) (n : Nat) (v : α) : SimpleVector α :=
  let a := ArrayPtr.mkSized (α := α) arith n
  ⟨{ a with mem := writeSeq a.mem 0 (List.replicate a.size v) }⟩

/-- Constructor `SimpleVector(std::initializer_list)`: `ArrayPtr(size)`
then `array_[i++] = v` for each listed value. -/
def fromList (arith : Bool) (l : List α) : SimpleVector α :=
  let a := ArrayPtr.mkSized (α := α) arith l.length
  ⟨{ a with mem := writeSeq a.mem 0 l }⟩

/-- Constructor `SimpleVector(ReserveProxyObj)`: `ArrayPtr{0, capacity}`. -/
def mkReserved (arith : Bool) (cap : Nat) : SimpleVector α :=
  ⟨ArrayPtr.mkSizeCap arith 0 cap⟩

/-- Copy construction / copy assignment (both `= default`): member-wise
copy of the `ArrayPtr`. -/
def copy (s : SimpleVector α) : SimpleVector α := ⟨s.array_.copy⟩

/-- Move construction (`= default`): member-wise move of the `ArrayPtr`.
Returns (constructed object, source after the move). -/
def moveCtor (s : SimpleVector α) : SimpleVector α × SimpleVector α :=
  let r := s.array_.moveCtor
  (⟨r.1⟩, ⟨r.2⟩)

/-- `SimpleVector::swap`: `std::swap` of the `ArrayPtr` members. -/
def swap (s t : SimpleVector α) : SimpleVector α × SimpleVector α := (t, s)

/-- Private helper `SimpleVector::GrowIfNeed`: `Resize(1)` when the
current size is 0, `Resize(2 * capacity)` when `size >= capacity`,
nothing otherwise. -/
def GrowIfNeed (arith : Bool) (s : SimpleVector α) : SimpleVector α :=
  if s.array_.size = 0 then ⟨s.array_.Resize arith 1⟩
  else if s.array_.size ≥ s.array_.capacity then
    ⟨s.array_.Resize arith (s.array_.capacity * 2)⟩
  else s

/-- `SimpleVector::PushBack(item)` (the copy and move overloads perform
the same writes): remember the old size, `GrowIfNeed()`,
`SetSize(old_size + 1)`, then `array_[old_size] = item`. -/
def PushBack (arith : Bool) (s : SimpleVector α) (item : α) : SimpleVector α :=
  let oldSize := s.array_.size
  let s1 := GrowIfNeed arith s
  let a2 := { s1.array_ with size := oldSize + 1 }
  ⟨{ a2 with mem := a2.mem.set oldSize item }⟩

/-- `SimpleVector::Insert(pos, value)` (the copy and move overloads
perform the same writes): `index = distance(cbegin(), pos)`,
`GrowIfNeed()`, `SetSize(old_size + 1)`, then
`std::copy(new_pos, end(), next(begin(), index + 1))` — an element-wise
forward copy of the range `[index, old_size + 1)` to destination
`index + 1` over the same block — then `array_[index] = value`.
Returns (new state, returned iterator as an index). -/
def Insert (arith : Bool) (s : SimpleVector α) (idx : Nat) (v : α) :
    SimpleVector α × Nat :=
  let oldSize := s.array_.size
  let s1 := GrowIfNeed arith s
  let a2 := { s1.array_ with size := oldSize + 1 }
  let a3 := { a2 with mem := copyFwd a2.mem idx (idx + 1) (oldSize + 1 - idx) }
  (⟨{ a3 with mem := a3.mem.set idx v }⟩, idx)

/-- `Insert` instrumented with `copyFwdW`: identical state and return
value, plus the list of destination indices written by the shift. -/
def InsertW (arith : Bool) (s : SimpleVector α) (idx : Nat) (v : α) :
    SimpleVector α × Nat × List Nat :=
  let oldSize := s.array_.size
  let s1 := GrowIfNeed arith s
  let a2 := { s1.array_ with size := oldSize + 1 }
  let r := copyFwdW a2.mem idx (idx + 1) (oldSize + 1 - idx)
  let a3 := { a2 with mem := r.1 }
  (⟨{ a3 with mem := a3.mem.set idx v }⟩, idx, r.2)

/-- `SimpleVector::PopBack`: decrements the size unless the sequence is
empty. -/
def PopBack (s : SimpleVector α) : SimpleVector α :=
  if s.IsEmpty = true then s else ⟨{ s.array_ with size := s.array_.size - 1 }⟩

/-- `SimpleVector::Erase(pos)`: `index = distance(cbegin(), pos)`, then
`std::copy` of the range `[index + 1, size)` to destination `index`
(move iterators; element-wise forward copy), `SetSize(size - 1)`, and
return `end()` when `index >= GetSize()` afterwards, else the iterator
at `index`.  Returns (new state, returned iterator as an index). -/
def Erase (s : SimpleVector α) (idx : Nat) : SimpleVector α × Nat :=
  let a1 := { s.array_ with
              mem := copyFwd s.array_.mem (idx + 1) idx (s.array_.size - (idx + 1)) }
  let a2 := { a1 with size := s.array_.size - 1 }
  (⟨a2⟩, if idx ≥ a2.size then a2.size else idx)

/-- `SimpleVector::Clear`: sets the size to 0. -/
def Clear (s : SimpleVector α) : SimpleVector α :=
  ⟨{ s.array_ with size := 0 }⟩

/-- `SimpleVector::Resize`: delegates to `ArrayPtr::Resize`. -/
def Resize (arith : Bool) (s : SimpleVector α) (newSize : Nat) : SimpleVector α :=
  ⟨s.array_.Resize arith newSize⟩

/-- `SimpleVector::Reserve`: delegates to `ArrayPtr::Reserve`. -/
def Reserve (s : SimpleVector α) (newCap : Nat) : SimpleVector α :=
  ⟨s.array_.Reserve newCap⟩

/-- Well-formedness of the wrapped buffer. -/
def WF (s : SimpleVector α) : Prop := s.array_.WF

/-- `PushBack` iterated `n` times on a default-constructed vector
(element `0`, arithmetic element type): the scenario behind the
doubling-capacity growth sequence. -/
def pushN : Nat → SimpleVector Int
  | 0 => mkEmpty
  | n + 1 => PushBack true (pushN n) 0

/-- Move assignment (`= default`): member-wise move assignment of the
`ArrayPtr` member (the distinct-objects path). -/
def moveAssign (dst src : SimpleVector α) : SimpleVector α × SimpleVector α :=
  let r := ArrayPtr.moveAssign dst.array_ src.array_
  (⟨r.1⟩, ⟨r.2⟩)

end SimpleVector

/-- The spec's pointer-nullity invariant restricted to the direction the
code maintains: whenever `capacity_ > 0` the `memory_` pointer is
non-null. -/
def NullInv {α : Type} (a : ArrayPtr α) : Prop :=
  0 < a.capacity → a.memNonNull = true

section ListLemmas

variable {α : Type}

theorem length_copyFwd [Inhabited α] (l : List α) (src dst n : Nat) :
    (copyFwd l src dst n).length = l.length := by
  induction n generalizing l src dst with
  | zero => rfl
  | succ n ih => simp [copyFwd, ih]

theorem copyFwdW_fst [Inhabited α] (l : List α) (src dst n : Nat) :
    (copyFwdW l src dst n).1 = copyFwd l src dst n := by
  induction n generalizing l src dst with
  | zero => rfl
  | succ n ih => simp [copyFwdW, copyFwd, ih]

theorem copyFwdW_snd [Inhabited α] (l : List α) (src dst n : Nat) :
    (copyFwdW l src dst n).2 = List.range' dst n := by
  induction n generalizing l src dst with
  | zero => rfl
  | succ n ih => simp [copyFwdW, List.range', ih]

theorem length_fillLoop (l : List α) (lo n : Nat) (v : α) :
    (fillLoop l lo n v).length = l.length := by
  induction n generalizing l lo with
  | zero => rfl
  | succ n ih => simp [fillLoop, ih]

theorem length_writeSeq (l : List α) (i : Nat) (vs : List α) :
    (writeSeq l i vs).length = l.length := by
  induction vs generalizing l i with
  | nil => rfl
  | cons v vs ih => simp [writeSeq, ih]

theorem set_getElem?_self {l : List α} {i : Nat} {v : α}
    (h : l[i]? = some v) : l.set i v = l := by
  apply List.ext_getElem?
  intro j
  rw [List.getElem?_set]
  split
  · next hij =>
    subst hij
    split
    · exact h.symm
    · next hlen =>
      rw [List.getElem?_eq_none (by omega)] at h
      exact absurd h (by simp)
  · rfl

theorem fillLoop_eq_self {v : α} :
    ∀ (k lo : Nat) (l : List α),
      (∀ j, lo ≤ j → j < lo + k → l[j]? = some v ∨ l.length ≤ j) →
      fillLoop l lo k v = l
  | 0, _, _, _ => rfl
  | k + 1, lo, l, h => by
    have hset : l.set lo v = l := by
      rcases h lo le_rfl (by omega) with h1 | h1
      · exact set_getElem?_self h1
      · exact List.set_eq_of_length_le h1
    show fillLoop (l.set lo v) (lo + 1) k v = l
    rw [hset]
    exact fillLoop_eq_self k (lo + 1) l (fun j hj1 hj2 => h j (by omega) (by omega))

end ListLemmas

namespace ArrayPtr

variable {α : Type} [Inhabited α]

theorem wf_mk0 : (mk0 : ArrayPtr α).WF := by simp [mk0, WF]

theorem ReserveTry_of_le {a : ArrayPtr α} {n : Nat} (ok : Bool)
    (h : n ≤ a.capacity) : ReserveTry ok a n = a := by
  simp [ReserveTry, h]

theorem ReserveTry_false_eq (a : ArrayPtr α) (n : Nat) :
    ReserveTry false a n = a := by
  simp [ReserveTry]

theorem ReserveTry_true_of_lt {a : ArrayPtr α} {n : Nat}
    (h : a.capacity < n) :
    ReserveTry true a n =
      ⟨true, a.mem.take a.size ++ List.replicate (n - a.size) default,
       a.size, n⟩ := by
  simp [ReserveTry, Nat.not_le.mpr h]

theorem size_ReserveTry (ok : Bool) (a : ArrayPtr α) (n : Nat) :
    (ReserveTry ok a n).size = a.size := by
  simp only [ReserveTry]
  split
  · rfl
  · cases ok <;> simp

theorem capacity_ReserveTry_true (a : ArrayPtr α) (n : Nat) :
    (ReserveTry true a n).capacity = max a.capacity n := by
  simp only [ReserveTry]
  split
  · next h => simp [Nat.max_eq_left h]
  · next h => simp [Nat.max_eq_right (le_of_lt (Nat.not_le.mp h))]

theorem capacity_le_ReserveTry (ok : Bool) (a : ArrayPtr α) (n : Nat) :
    a.capacity ≤ (ReserveTry ok a n).capacity := by
  simp only [ReserveTry]
  split
  · exact le_rfl
  · next h => cases ok <;> simp [le_of_lt (Nat.not_le.mp h)]

theorem wf_ReserveTry {a : ArrayPtr α} (ok : Bool) (n : Nat) (h : a.WF) :
    (ReserveTry ok a n).WF := by
  obtain ⟨hsc, hlen⟩ := h
  simp only [ReserveTry]
  split
  · exact ⟨hsc, hlen⟩
  · next hc =>
    cases ok with
    | false => exact ⟨hsc, hlen⟩
    | true =>
      have hcap : a.capacity < n := Nat.not_le.mp hc
      refine ⟨by simp; omega, ?_⟩
      simp [List.length_take, hlen]
      omega

theorem memNonNull_ReserveTry {a : ArrayPtr α} (ok : Bool) (n : Nat)
    (h : NullInv a) : NullInv (ReserveTry ok a n) := by
  simp only [ReserveTry]
  split
  · exact h
  · cases ok with
    | false => exact h
    | true => intro _; rfl

theorem size_Resize (arith : Bool) (a : ArrayPtr α) (n : Nat) :
    (Resize arith a n).size = n := rfl

theorem capacity_Resize (arith : Bool) (a : ArrayPtr α) (n : Nat) :
    (Resize arith a n).capacity = max a.capacity n := by
  simp only [Resize, Reserve]
  cases arith <;> simp [capacity_ReserveTry_true]

theorem wf_Resize {a : ArrayPtr α} (arith : Bool) (n : Nat) (h : a.WF) :
    (Resize arith a n).WF := by
  have h1 := wf_ReserveTry (a := a) true n h
  refine ⟨?_, ?_⟩
  · rw [size_Resize, capacity_Resize]; omega
  · show (Resize arith a n).mem.length = (Resize arith a n).capacity
    simp only [Resize, Reserve]
    cases arith <;> simp [length_fillLoop, h1.2]

theorem mem_length_Resize {a : ArrayPtr α} (arith : Bool) (n : Nat)
    (h : a.WF) : (Resize arith a n).mem.length = max a.capacity n := by
  rw [(wf_Resize arith n h).2, capacity_Resize]

theorem memNonNull_Resize {a : ArrayPtr α} (arith : Bool) (n : Nat)
    (h : NullInv a) : NullInv (Resize arith a n) := by
  have h1 := memNonNull_ReserveTry (a := a) true n h
  simp only [Resize, Reserve, NullInv] at h1 ⊢
  cases arith <;> simpa using h1

theorem wf_mkSized (arith : Bool) (n : Nat) :
    (mkSized arith n : ArrayPtr α).WF := by
  simp only [mkSized]
  split
  · exact wf_Resize arith n wf_mk0
  · exact wf_mk0

theorem wf_copy {a : ArrayPtr α} (h : a.WF) : (copy a).WF := by
  obtain ⟨hsc, hlen⟩ := h
  refine ⟨hsc, ?_⟩
  simp [copy, List.length_take, hlen]
  omega

theorem Resize_of_le_size {a : ArrayPtr α} (arith : Bool) {n : Nat}
    (h : a.WF) (hn : n ≤ a.size) :
    Resize arith a n = { a with size := n } := by
  have hcap : n ≤ a.capacity := le_trans hn h.1
  have hzero : n - a.size = 0 := by omega
  simp only [Resize, Reserve, ReserveTry_of_le true hcap, hzero]
  cases arith <;> rfl

theorem elems_Resize_of_lt {a : ArrayPtr α} (arith : Bool) {n : Nat}
    (h : a.WF) (hc : a.capacity < n) :
    (Resize arith a n).elems = a.elems ++ List.replicate (n - a.size) default := by
  obtain ⟨hsc, hlen⟩ := h
  have hres := ReserveTry_true_of_lt (a := a) (n := n) hc
  have hlen_take : (a.mem.take a.size).length = a.size := by
    simp [List.length_take]; omega
  have hlen1 : (a.mem.take a.size ++ List.replicate (n - a.size) default).length = n := by
    simp [hlen_take]; omega
  have hfill : fillLoop (a.mem.take a.size ++ List.replicate (n - a.size) default)
      a.size (n - a.size) default
      = a.mem.take a.size ++ List.replicate (n - a.size) default := by
    apply fillLoop_eq_self
    intro j hj1 hj2
    left
    have h1 : (a.mem.take a.size).length ≤ j := by rw [hlen_take]; omega
    rw [List.getElem?_append_right h1, hlen_take, List.getElem?_replicate,
        if_pos (by omega)]
  simp only [Resize, Reserve, hres, elems]
  cases arith with
  | false =>
    simp only [Bool.false_eq_true, if_false]
    rw [List.take_of_length_le (le_of_eq hlen1)]
  | true =>
    simp only [if_true]
    rw [hfill, List.take_of_length_le (le_of_eq hlen1)]

theorem nullInv_mk0 : NullInv (mk0 : ArrayPtr α) :=
  fun h => (Nat.lt_irrefl 0 h).elim

theorem nullInv_mkSized (arith : Bool) (n : Nat) :
    NullInv (mkSized arith n : ArrayPtr α) := by
  simp only [mkSized]
  split
  · exact memNonNull_Resize arith n nullInv_mk0
  · exact nullInv_mk0

theorem nullInv_mkSizeCap (arith : Bool) (sz cap : Nat) :
    NullInv (mkSizeCap arith sz cap : ArrayPtr α) := by
  have h := memNonNull_Resize (a := (mk0 : ArrayPtr α)) arith cap nullInv_mk0
  exact h

theorem wf_mkSizeCap {sz cap : Nat} (arith : Bool) (h : sz ≤ cap) :
    (mkSizeCap arith sz cap : ArrayPtr α).WF := by
  have h1 := wf_Resize (a := (mk0 : ArrayPtr α)) arith cap wf_mk0
  refine ⟨?_, ?_⟩
  · show sz ≤ (Resize arith (mk0 : ArrayPtr α) cap).capacity
    rw [capacity_Resize]
    simp [mk0]
    omega
  · show (Resize arith (mk0 : ArrayPtr α) cap).mem.length =
         (Resize arith (mk0 : ArrayPtr α) cap).capacity
    exact h1.2

end ArrayPtr

namespace SimpleVector

variable {α : Type} [Inhabited α]

theorem wf_mkEmpty : (mkEmpty : SimpleVector α).WF := ArrayPtr.wf_mk0

theorem wf_mkSizedVec (arith : Bool) (n : Nat) :
    (mkSized arith n : SimpleVector α).WF := ArrayPtr.wf_mkSized arith n

theorem wf_fromList (arith : Bool) (l : List α) :
    (fromList arith l).WF := by
  have h := ArrayPtr.wf_mkSized (α := α) arith l.length
  exact ⟨h.1, by simpa [fromList, length_writeSeq] using h.2⟩

theorem wf_mkFill (arith : Bool) (n : Nat) (v : α) :
    (mkFill arith n v : SimpleVector α).WF := by
  have h := ArrayPtr.wf_mkSized (α := α) arith n
  exact ⟨h.1, by simpa [mkFill, length_writeSeq] using h.2⟩

theorem capacity_GrowIfNeed_of_lt {s : SimpleVector α} (arith : Bool)
    (h : s.array_.size < s.array_.capacity) :
    (GrowIfNeed arith s).array_.capacity = s.array_.capacity := by
  simp only [GrowIfNeed]
  split
  · next h0 =>
    rw [ArrayPtr.capacity_Resize]
    omega
  · rw [if_neg (by omega)]

theorem capacity_GrowIfNeed_full0 {s : SimpleVector α} (arith : Bool)
    (h0 : s.array_.size = 0) (hc : s.array_.capacity = 0) :
    (GrowIfNeed arith s).array_.capacity = 1 := by
  simp only [GrowIfNeed, if_pos h0]
  rw [ArrayPtr.capacity_Resize, hc]
  decide

theorem capacity_GrowIfNeed_full {s : SimpleVector α} (arith : Bool)
    (h : s.array_.size = s.array_.capacity) (hc : 0 < s.array_.capacity) :
    (GrowIfNeed arith s).array_.capacity = 2 * s.array_.capacity := by
  simp only [GrowIfNeed]
  rw [if_neg (by omega), if_pos (by omega), ArrayPtr.capacity_Resize]
  omega

theorem capacity_le_GrowIfNeed (arith : Bool) (s : SimpleVector α) :
    s.array_.capacity ≤ (GrowIfNeed arith s).array_.capacity := by
  simp only [GrowIfNeed]
  split
  · rw [ArrayPtr.capacity_Resize]; omega
  · split
    · rw [ArrayPtr.capacity_Resize]; omega
    · exact le_rfl

theorem size_succ_le_capacity_GrowIfNeed {s : SimpleVector α} (arith : Bool)
    (h : s.WF) :
    s.array_.size + 1 ≤ (GrowIfNeed arith s).array_.capacity := by
  obtain ⟨hsc, _⟩ := h
  simp only [GrowIfNeed]
  split
  · next h0 => rw [ArrayPtr.capacity_Resize]; omega
  · next h0 =>
    split
    · next h1 => rw [ArrayPtr.capacity_Resize]; omega
    · next h1 => omega

theorem insertW_state {s : SimpleVector α} (arith : Bool) (idx : Nat) (v : α) :
    (InsertW arith s idx v).1 = (Insert arith s idx v).1 ∧
    (InsertW arith s idx v).2.1 = (Insert arith s idx v).2 := by
  constructor
  · simp only [InsertW, Insert, copyFwdW_fst]
  · rfl

theorem insertW_writes {s : SimpleVector α} (arith : Bool) (idx : Nat) (v : α) :
    (InsertW arith s idx v).2.2 = List.range' (idx + 1) (s.array_.size + 1 - idx) := by
  simp only [InsertW, copyFwdW_snd]

theorem nullInv_GrowIfNeed {s : SimpleVector α} (arith : Bool)
    (h : NullInv s.array_) : NullInv (GrowIfNeed arith s).array_ := by
  simp only [GrowIfNeed]
  split
  · exact ArrayPtr.memNonNull_Resize arith 1 h
  · split
    · exact ArrayPtr.memNonNull_Resize arith _ h
    · exact h

theorem wf_GrowIfNeed {s : SimpleVector α} (arith : Bool) (h : s.WF) :
    (GrowIfNeed arith s).WF := by
  simp only [GrowIfNeed]
  split
  · exact ArrayPtr.wf_Resize arith 1 h
  · split
    · exact ArrayPtr.wf_Resize arith _ h
    · exact h

theorem wf_PushBack {s : SimpleVector α} (arith : Bool) (x : α) (h : s.WF) :
    (PushBack arith s x).WF := by
  have h1 := wf_GrowIfNeed arith h
  have h2 := size_succ_le_capacity_GrowIfNeed arith h
  exact ⟨h2, by simpa [PushBack] using h1.2⟩

theorem wf_Insert {s : SimpleVector α} (arith : Bool) (idx : Nat) (v : α)
    (h : s.WF) : (Insert arith s idx v).1.WF := by
  have h1 := wf_GrowIfNeed arith h
  have h2 := size_succ_le_capacity_GrowIfNeed arith h
  exact ⟨h2, by simpa [Insert, length_copyFwd] using h1.2⟩

theorem wf_PopBack {s : SimpleVector α} (h : s.WF) : (PopBack s).WF := by
  obtain ⟨hsc, hlen⟩ := h
  simp only [PopBack]
  split
  · exact ⟨hsc, hlen⟩
  · refine ⟨?_, hlen⟩
    show s.array_.size - 1 ≤ s.array_.capacity
    omega

theorem wf_Erase {s : SimpleVector α} (idx : Nat) (h : s.WF) :
    (Erase s idx).1.WF := by
  obtain ⟨hsc, hlen⟩ := h
  exact ⟨by simp [Erase]; omega, by simpa [Erase, length_copyFwd] using hlen⟩

theorem wf_Clear {s : SimpleVector α} (h : s.WF) : (Clear s).WF :=
  ⟨Nat.zero_le _, h.2⟩

theorem wf_Resize' {s : SimpleVector α} (arith : Bool) (n : Nat) (h : s.WF) :
    (Resize arith s n).WF := ArrayPtr.wf_Resize arith n h

theorem wf_Reserve {s : SimpleVector α} (n : Nat) (h : s.WF) :
    (Reserve s n).WF := ArrayPtr.wf_ReserveTry true n h

end SimpleVector

open SimpleVector in
/-- Claim C1: on the sequence `{1,2,3}`, `Insert(begin+1, 99)` does NOT
yield `{1,99,2,3}`.  The shift is done with a forward `std::copy` whose
destination lies inside the source range, so the element-wise loop
copies the slot at the insertion point over the whole suffix: the result
is `{1,99,2,2}` (the returned iterator does point at the inserted `99`).
This contradicts the claimed insert semantics, so the claim marks a code
bug; this theorem evaluates the embedded code at the failing input. -/
theorem claim_C1_insert_concrete :
    (Insert true (fromList true [(1 : Int), 2, 3]) 1 99).1.elems = [1, 99, 2, 2] ∧
    (Insert true (fromList true [(1 : Int), 2, 3]) 1 99).2 = 1 ∧
    (Insert true (fromList true [(1 : Int), 2, 3]) 1 99).1.elems ≠ [1, 99, 2, 3] := by
  refine ⟨by decide, by decide, by decide⟩

open SimpleVector in
/-- Claim C2: `Erase(Insert(p, v))` is NOT the identity on the observable
sequence.  On `{1,2,3}` with `p = begin+1`, `v = 99`, the insert leaves
`{1,99,2,2}` (overlapping-copy bug) and the erase of the returned
position then yields `{1,2,2}`, not the original `{1,2,3}`.  The claim
marks a code bug; this theorem evaluates the embedded code at the
failing input (the size does round-trip, the contents do not). -/
theorem claim_C2_round_trip_concrete :
    (fromList true [(1 : Int), 2, 3]).elems = [1, 2, 3] ∧
    ((Erase (Insert true (fromList true [(1 : Int), 2, 3]) 1 99).1
        (Insert true (fromList true [(1 : Int), 2, 3]) 1 99).2).1.elems
      = [1, 2, 2]) ∧
    ((Erase (Insert true (fromList true [(1 : Int), 2, 3]) 1 99).1
        (Insert true (fromList true [(1 : Int), 2, 3]) 1 99).2).1.elems
      ≠ [1, 2, 3]) := by
  refine ⟨by decide, by decide, by decide⟩

/-- Claim C5: when the allocation in `ArrayPtr::Reserve` fails, the
`catch (...)` swallows the exception (the function still returns — the
model is a total function into buffer states, not into states plus an
error outcome) and every field of the buffer — pointer, contents, size,
capacity — is exactly as before the call. -/
theorem claim_C5_reserve_alloc_failure {α : Type} [Inhabited α]
    (a : CppSimpleVector.ArrayPtr α) (n : Nat) :
    CppSimpleVector.ArrayPtr.ReserveTry false a n = a := by
  simp only [CppSimpleVector.ArrayPtr.ReserveTry]
  split
  · rfl
  · simp

open SimpleVector in
/-- Claim C3: `PushBack` changes the capacity only when the sequence is
full (`size == capacity`): a full sequence of capacity 0 grows to
capacity 1, a full sequence of capacity `c > 0` grows to capacity `2*c`,
capacity never shrinks, and starting from a default-constructed vector
the capacities after 1, 2, 3, 5 and 9 pushes (i.e. across the successive
forced growths) are 1, 2, 4, 8, 16. -/
theorem claim_C3_pushback_growth {α : Type} [Inhabited α] (arith : Bool)
    (s : SimpleVector α) (x : α) (h : s.WF) :
    (s.GetSize ≠ s.GetCapacity →
      (PushBack arith s x).GetCapacity = s.GetCapacity) ∧
    (s.GetSize = s.GetCapacity → s.GetCapacity = 0 →
      (PushBack arith s x).GetCapacity = 1) ∧
    (s.GetSize = s.GetCapacity → 0 < s.GetCapacity →
      (PushBack arith s x).GetCapacity = 2 * s.GetCapacity) ∧
    (s.GetCapacity ≤ (PushBack arith s x).GetCapacity) ∧
    ((pushN 1).GetCapacity = 1 ∧ (pushN 2).GetCapacity = 2 ∧
     (pushN 3).GetCapacity = 4 ∧ (pushN 5).GetCapacity = 8 ∧
     (pushN 9).GetCapacity = 16) := by
  have hcap : (PushBack arith s x).GetCapacity
      = (GrowIfNeed arith s).array_.capacity := rfl
  refine ⟨?_, ?_, ?_, ?_, by decide, by decide, by decide, by decide, by decide⟩
  · intro hne
    exact hcap.trans (capacity_GrowIfNeed_of_lt arith (lt_of_le_of_ne h.1 hne))
  · intro he h0
    have h0' : s.array_.size = 0 := by
      have hg : s.GetSize = 0 := by omega
      exact hg
    exact hcap.trans (capacity_GrowIfNeed_full0 arith h0' h0)
  · intro he hpos
    exact hcap.trans (capacity_GrowIfNeed_full arith he hpos)
  · exact hcap ▸ capacity_le_GrowIfNeed arith s

open SimpleVector in
/-- Witness for claim C3 at a concrete input: `{1,2}` is full
(size = capacity = 2), and pushing onto it doubles the capacity to 4. -/
theorem claim_C3_witness :
    (fromList true [(1 : Int), 2]).WF ∧
    (PushBack true (fromList true [(1 : Int), 2]) 7).GetCapacity
      = 2 * (fromList true [(1 : Int), 2]).GetCapacity :=
  ⟨by constructor <;> decide,
   (claim_C3_pushback_growth true (fromList true [(1 : Int), 2]) 7
      (by constructor <;> decide)).2.2.1 (by decide) (by decide)⟩

open SimpleVector in
/-- Claim C6: the checked access `At(i)` fails (models the thrown
`std::out_of_range` as `none`) exactly when `i ≥ GetSize()`, and for
`i < GetSize()` it returns the element at position `i` of the visible
sequence. -/
theorem claim_C6_at_bounds {α : Type} [Inhabited α]
    (s : SimpleVector α) (i : Nat) :
    (s.GetSize ≤ i → s.At i = none) ∧
    (i < s.GetSize → s.At i = some (s.elems.getD i default)) := by
  constructor
  · intro hge
    simp [SimpleVector.At, ArrayPtr.At, GetSize] at hge ⊢
    exact hge
  · intro hlt
    have hlt' : i < s.array_.size := hlt
    simp only [SimpleVector.At, ArrayPtr.At, if_neg (by omega : ¬ i ≥ s.array_.size)]
    rw [List.getD_eq_getElem?_getD, List.getD_eq_getElem?_getD,
        SimpleVector.elems, ArrayPtr.elems, List.getElem?_take, if_pos hlt']

open SimpleVector in
/-- Witness for claim C6 at a concrete input: on `{3,4}`, `At 1` returns
the element at index 1 and `At 5` raises out-of-range (`none`). -/
theorem claim_C6_witness :
    (fromList true [(3 : Int), 4]).At 1
      = some ((fromList true [(3 : Int), 4]).elems.getD 1 default) ∧
    (fromList true [(3 : Int), 4]).At 5 = none :=
  ⟨(claim_C6_at_bounds (fromList true [(3 : Int), 4]) 1).2 (by decide),
   (claim_C6_at_bounds (fromList true [(3 : Int), 4]) 5).1 (by decide)⟩

open SimpleVector in
/-- Claim C9: after a move (construction or assignment) the target holds
exactly the elements the source held, the source is left in the valid
empty state (`GetSize() == 0`; for move construction it is literally the
default-constructed state), and the source remains usable: a subsequent
`PushBack` behaves exactly as on an empty sequence, producing the
one-element sequence `[x]`. -/
theorem claim_C9_move_semantics {α : Type} [Inhabited α] (arith : Bool)
    (s t : SimpleVector α) (x : α) :
    (s.moveCtor.1 = s) ∧
    (s.moveCtor.1.elems = s.elems) ∧
    (s.moveCtor.2.GetSize = 0) ∧
    (s.moveCtor.2 = mkEmpty) ∧
    ((PushBack arith s.moveCtor.2 x).elems = [x]) ∧
    ((moveAssign t s).1 = s) ∧
    ((moveAssign t s).2.GetSize = 0) ∧
    ((PushBack arith (moveAssign t s).2 x).elems = [x]) := by
  cases arith <;> exact ⟨rfl, rfl, rfl, rfl, rfl, rfl, rfl, rfl⟩

/-- Claim C7 counterexample: copying a default-constructed (capacity-0)
buffer runs `new Type[0]`, which returns a non-null pointer, so the
copy has a non-null `memory_` with `capacity_ = 0` — the "non-null iff
capacity > 0" invariant fails in the only-if direction on a state
reachable by public operations (copy of a default-constructed buffer). -/
theorem claim_C7_counterexample :
    ¬ ((CppSimpleVector.ArrayPtr.copy (CppSimpleVector.ArrayPtr.mk0 : CppSimpleVector.ArrayPtr Int)).memNonNull = true
        ↔ 0 < (CppSimpleVector.ArrayPtr.copy (CppSimpleVector.ArrayPtr.mk0 : CppSimpleVector.ArrayPtr Int)).capacity) := by
  decide

open SimpleVector in
/-- Claim C7 amended: across every public operation the direction the
code does maintain holds — whenever `capacity > 0` the owned data
pointer is non-null (`NullInv`).  The converse fails (see the
counterexample): `new Type[0]` in the copy constructor yields a
non-null pointer with capacity 0. -/
theorem claim_C7_amended {α : Type} [Inhabited α] (arith ok : Bool)
    (n sz cap idx : Nat) (a b : ArrayPtr α) (s : SimpleVector α) (x v : α) :
    NullInv (ArrayPtr.mk0 : ArrayPtr α) ∧
    NullInv (ArrayPtr.mkSized arith n : ArrayPtr α) ∧
    NullInv (ArrayPtr.mkSizeCap arith sz cap : ArrayPtr α) ∧
    (NullInv a → NullInv (ArrayPtr.ReserveTry ok a n)) ∧
    (NullInv a → NullInv (ArrayPtr.Resize arith a n)) ∧
    NullInv (ArrayPtr.copy a) ∧
    (NullInv a → NullInv (ArrayPtr.moveCtor a).1) ∧
    NullInv (ArrayPtr.moveCtor a).2 ∧
    (NullInv a → NullInv (ArrayPtr.moveAssign b a).1) ∧
    NullInv (ArrayPtr.moveAssign b a).2 ∧
    (NullInv a → NullInv b →
      NullInv (ArrayPtr.swap a b).1 ∧ NullInv (ArrayPtr.swap a b).2) ∧
    NullInv (fromList arith [x]).array_ ∧
    (NullInv s.array_ → NullInv (GrowIfNeed arith s).array_) ∧
    (NullInv s.array_ → NullInv (PushBack arith s x).array_) ∧
    (NullInv s.array_ → NullInv (Insert arith s idx v).1.array_) ∧
    (NullInv s.array_ → NullInv (PopBack s).array_) ∧
    (NullInv s.array_ → NullInv (Erase s idx).1.array_) ∧
    (NullInv s.array_ → NullInv (Clear s).array_) ∧
    (NullInv s.array_ → NullInv (Resize arith s n).array_) ∧
    (NullInv s.array_ → NullInv (Reserve s n).array_) := by
  refine ⟨ArrayPtr.nullInv_mk0, ArrayPtr.nullInv_mkSized arith n,
          ArrayPtr.nullInv_mkSizeCap arith sz cap,
          fun h => ArrayPtr.memNonNull_ReserveTry ok n h,
          fun h => ArrayPtr.memNonNull_Resize arith n h,
          fun _ => rfl,
          fun h => h, ArrayPtr.nullInv_mk0,
          fun h => h, fun h => (Nat.lt_irrefl 0 h).elim,
          fun ha hb => ⟨hb, ha⟩,
          ?_,
          fun h => nullInv_GrowIfNeed arith h,
          fun h => nullInv_GrowIfNeed arith h,
          fun h => nullInv_GrowIfNeed arith h,
          fun h => by
            simp only [PopBack]
            split
            · exact h
            · exact h,
          fun h => h, fun h => h,
          fun h => ArrayPtr.memNonNull_Resize arith n h,
          fun h => ArrayPtr.memNonNull_ReserveTry true n h⟩
  · exact ArrayPtr.nullInv_mkSized arith 1

open SimpleVector in
/-- Witness for claim C7 amended at concrete inputs (all the implication
hypotheses discharged on `mk0` / the empty vector). -/
theorem claim_C7_witness :
    NullInv (ArrayPtr.ReserveTry true (ArrayPtr.mk0 : ArrayPtr Int) 3) ∧
    NullInv (PushBack true (mkEmpty : SimpleVector Int) 4).array_ :=
  ⟨(claim_C7_amended true true 3 0 0 0 (ArrayPtr.mk0 : ArrayPtr Int)
      ArrayPtr.mk0 mkEmpty 4 4).2.2.2.1 ArrayPtr.nullInv_mk0,
   (claim_C7_amended true true 3 0 0 0 (ArrayPtr.mk0 : ArrayPtr Int)
      ArrayPtr.mk0 mkEmpty 4 4).2.2.2.2.2.2.2.2.2.2.2.2.2.1 ArrayPtr.nullInv_mk0⟩

open SimpleVector in
/-- Claim C4: `GetSize() <= GetCapacity()` holds after every public
operation — all construction forms, `PushBack`, `Insert`, `PopBack`,
`Erase`, `Clear`, `Resize`, `Reserve`, `swap`, copy and move — given
well-formed inputs (and `sz <= cap` for the two-argument buffer
constructor, its documented precondition). -/
theorem claim_C4_size_le_capacity {α : Type} [Inhabited α] (arith : Bool)
    (n sz cap idx : Nat) (l : List α) (v x : α) (s t : SimpleVector α)
    (hs : s.WF) (ht : t.WF) (hsc : sz ≤ cap) :
    ((mkEmpty : SimpleVector α).GetSize ≤ (mkEmpty : SimpleVector α).GetCapacity) ∧
    ((mkSized arith n : SimpleVector α).GetSize ≤ (mkSized arith n : SimpleVector α).GetCapacity) ∧
    ((mkFill arith n v : SimpleVector α).GetSize ≤ (mkFill arith n v : SimpleVector α).GetCapacity) ∧
    ((fromList arith l).GetSize ≤ (fromList arith l).GetCapacity) ∧
    ((mkReserved arith cap : SimpleVector α).GetSize ≤ (mkReserved arith cap : SimpleVector α).GetCapacity) ∧
    ((ArrayPtr.mkSizeCap arith sz cap : ArrayPtr α).size ≤ (ArrayPtr.mkSizeCap arith sz cap : ArrayPtr α).capacity) ∧
    ((PushBack arith s x).GetSize ≤ (PushBack arith s x).GetCapacity) ∧
    ((Insert arith s idx v).1.GetSize ≤ (Insert arith s idx v).1.GetCapacity) ∧
    ((PopBack s).GetSize ≤ (PopBack s).GetCapacity) ∧
    ((Erase s idx).1.GetSize ≤ (Erase s idx).1.GetCapacity) ∧
    ((Clear s).GetSize ≤ (Clear s).GetCapacity) ∧
    ((Resize arith s n).GetSize ≤ (Resize arith s n).GetCapacity) ∧
    ((Reserve s n).GetSize ≤ (Reserve s n).GetCapacity) ∧
    ((SimpleVector.swap s t).1.GetSize ≤ (SimpleVector.swap s t).1.GetCapacity) ∧
    ((SimpleVector.swap s t).2.GetSize ≤ (SimpleVector.swap s t).2.GetCapacity) ∧
    ((copy s).GetSize ≤ (copy s).GetCapacity) ∧
    (s.moveCtor.1.GetSize ≤ s.moveCtor.1.GetCapacity) ∧
    (s.moveCtor.2.GetSize ≤ s.moveCtor.2.GetCapacity) ∧
    ((moveAssign t s).1.GetSize ≤ (moveAssign t s).1.GetCapacity) ∧
    ((moveAssign t s).2.GetSize ≤ (moveAssign t s).2.GetCapacity) :=
  ⟨wf_mkEmpty.1, (wf_mkSizedVec arith n).1, (wf_mkFill arith n v).1,
   (wf_fromList arith l).1, (ArrayPtr.wf_mkSizeCap arith (Nat.zero_le cap)).1,
   (ArrayPtr.wf_mkSizeCap arith hsc).1,
   (wf_PushBack arith x hs).1, (wf_Insert arith idx v hs).1,
   (wf_PopBack hs).1, (wf_Erase idx hs).1, (wf_Clear hs).1,
   (wf_Resize' arith n hs).1, (wf_Reserve n hs).1,
   ht.1, hs.1, (ArrayPtr.wf_copy hs).1, hs.1, wf_mkEmpty.1, hs.1,
   Nat.le_refl 0⟩

open SimpleVector in
/-- Witness for claim C4 at concrete inputs: the two well-formed vectors
`{1,2,3}` and `{}` and the precondition `1 <= 2`. -/
theorem claim_C4_witness :
    (PushBack true (fromList true [(1 : Int), 2, 3]) 9).GetSize
      ≤ (PushBack true (fromList true [(1 : Int), 2, 3]) 9).GetCapacity ∧
    (Erase (fromList true [(1 : Int), 2, 3]) 1).1.GetSize
      ≤ (Erase (fromList true [(1 : Int), 2, 3]) 1).1.GetCapacity :=
  ⟨(claim_C4_size_le_capacity true 4 1 2 1 [(1 : Int)] 0 9
      (fromList true [(1 : Int), 2, 3]) mkEmpty
      (by constructor <;> decide) (by constructor <;> decide)
      (by decide)).2.2.2.2.2.2.1,
   (claim_C4_size_le_capacity true 4 1 2 1 [(1 : Int)] 0 9
      (fromList true [(1 : Int), 2, 3]) mkEmpty
      (by constructor <;> decide) (by constructor <;> decide)
      (by decide)).2.2.2.2.2.2.2.2.2.1⟩

open SimpleVector in
/-- Claim C8: `Resize(newSize)` with `newSize > capacity` reallocates the
capacity to exactly `newSize` (no doubling) and default/zero-fills the
new slots `[oldSize, newSize)`; with `newSize <= oldSize` it only
adjusts the size field (capacity and block untouched); concretely,
`Resize(5)` on `{1,2,3}` with arithmetic element type yields
`{1,2,3,0,0}`. -/
theorem claim_C8_resize {α : Type} [Inhabited α] (arith : Bool)
    (s : SimpleVector α) (n : Nat) (h : s.WF) :
    (s.GetCapacity < n →
      (Resize arith s n).GetCapacity = n ∧
      (Resize arith s n).GetSize = n ∧
      (Resize arith s n).elems
        = s.elems ++ List.replicate (n - s.GetSize) default) ∧
    (n ≤ s.GetSize →
      (Resize arith s n).GetCapacity = s.GetCapacity ∧
      (Resize arith s n).array_.mem = s.array_.mem ∧
      (Resize arith s n).GetSize = n) ∧
    ((Resize true (fromList true [(1 : Int), 2, 3]) 5).elems
      = [1, 2, 3, 0, 0]) := by
  refine ⟨?_, ?_, by decide⟩
  · intro hc
    have hc' : s.array_.capacity < n := hc
    refine ⟨?_, ArrayPtr.size_Resize arith _ n,
            ArrayPtr.elems_Resize_of_lt arith h hc'⟩
    show (ArrayPtr.Resize arith s.array_ n).capacity = n
    rw [ArrayPtr.capacity_Resize]
    omega
  · intro hn
    have hn' : n ≤ s.array_.size := hn
    have heq := ArrayPtr.Resize_of_le_size arith h hn'
    refine ⟨?_, ?_, ArrayPtr.size_Resize arith _ n⟩
    · show (ArrayPtr.Resize arith s.array_ n).capacity = s.array_.capacity
      rw [heq]
    · show (ArrayPtr.Resize arith s.array_ n).mem = s.array_.mem
      rw [heq]

open SimpleVector in
/-- Witness for claim C8 at concrete inputs: growing `{1,2,3}` to 5 sets
the capacity to exactly 5; shrinking it to 2 leaves the block alone. -/
theorem claim_C8_witness :
    (Resize true (fromList true [(1 : Int), 2, 3]) 5).GetCapacity = 5 ∧
    (Resize true (fromList true [(1 : Int), 2, 3]) 2).array_.mem
      = (fromList true [(1 : Int), 2, 3]).array_.mem :=
  ⟨((claim_C8_resize true (fromList true [(1 : Int), 2, 3]) 5
      (by constructor <;> decide)).1 (by decide)).1,
   ((claim_C8_resize true (fromList true [(1 : Int), 2, 3]) 2
      (by constructor <;> decide)).2.1 (by decide)).2.1⟩

open SimpleVector in
/-- Claim C10: the suffix shift inside `Insert` always writes the slot at
index `oldSize + 1`, one past the new last element (the instrumented
`InsertW` computes the same state and return value as `Insert` and
reports the written destination indices, which form exactly the range
`[idx+1, oldSize+2)`); whenever the capacity after `GrowIfNeed` is below
`oldSize + 2` some written index reaches past the allocated block (whose
length is that capacity).  The concrete conjuncts exhibit such a valid
call on a non-full sequence: size 1, capacity 2, inserting at `begin`
writes indices `[1, 2]` while the block has only 2 slots. -/
theorem claim_C10_insert_oob {α : Type} [Inhabited α] (arith : Bool)
    (s : SimpleVector α) (idx : Nat) (v : α) (h : s.WF)
    (hidx : idx ≤ s.GetSize) :
    ((InsertW arith s idx v).1 = (Insert arith s idx v).1 ∧
     (InsertW arith s idx v).2.1 = (Insert arith s idx v).2) ∧
    ((InsertW arith s idx v).2.2
      = List.range' (idx + 1) (s.GetSize + 1 - idx)) ∧
    (s.GetSize + 1 ∈ (InsertW arith s idx v).2.2) ∧
    ((GrowIfNeed arith s).array_.mem.length = (GrowIfNeed arith s).GetCapacity) ∧
    ((GrowIfNeed arith s).GetCapacity < s.GetSize + 2 →
      ∃ j ∈ (InsertW arith s idx v).2.2,
        (GrowIfNeed arith s).GetCapacity ≤ j) ∧
    ((Reserve (fromList true [(5 : Int)]) 2).GetSize = 1 ∧
     (Reserve (fromList true [(5 : Int)]) 2).GetCapacity = 2 ∧
     (Reserve (fromList true [(5 : Int)]) 2).GetSize
       < (Reserve (fromList true [(5 : Int)]) 2).GetCapacity ∧
     (GrowIfNeed true (Reserve (fromList true [(5 : Int)]) 2)).GetCapacity = 2 ∧
     (InsertW true (Reserve (fromList true [(5 : Int)]) 2) 0 7).2.2 = [1, 2] ∧
     2 ∈ (InsertW true (Reserve (fromList true [(5 : Int)]) 2) 0 7).2.2 ∧
     (GrowIfNeed true (Reserve (fromList true [(5 : Int)]) 2)).GetCapacity ≤ 2) := by
  have hmem : s.GetSize + 1 ∈ (InsertW arith s idx v).2.2 := by
    rw [insertW_writes, List.mem_range'_1]
    have hidx' : idx ≤ s.array_.size := hidx
    simp only [GetSize]
    omega
  refine ⟨insertW_state arith idx v, insertW_writes arith idx v, hmem,
          (wf_GrowIfNeed arith h).2, ?_,
          by decide, by decide, by decide, by decide, by decide, by decide,
          by decide⟩
  intro hc
  exact ⟨s.GetSize + 1, hmem, by omega⟩

open SimpleVector in
/-- Witness for claim C10 at the concrete input: vector `{5}` with
reserved capacity 2 (non-full), inserting at the front. -/
theorem claim_C10_witness :
    (Reserve (fromList true [(5 : Int)]) 2).WF ∧
    0 ≤ (Reserve (fromList true [(5 : Int)]) 2).GetSize ∧
    ∃ j ∈ (InsertW true (Reserve (fromList true [(5 : Int)]) 2) 0 7).2.2,
      (GrowIfNeed true (Reserve (fromList true [(5 : Int)]) 2)).GetCapacity ≤ j :=
  ⟨by constructor <;> decide, by decide,
   (claim_C10_insert_oob true (Reserve (fromList true [(5 : Int)]) 2) 0 7
      (by constructor <;> decide) (by decide)).2.2.2.2.1 (by decide)⟩

end CppSimpleVector
